import Mathlib

/-!
Verification of the batch merge-conflict resolver (`resolve_conflicts.py` and
`resolve_conflicts_v2.py`).

The heart of both scripts is a Python `re.sub` call over the file's full text:

* v1 pattern: `<<<<<<< HEAD\n(.*?)\n=======\n.*?\n>>>>>>> .*?\n` with `re.DOTALL`
* v2 pattern: `<<<<<<< HEAD.*?\n(.*?)\n=======\n.*?\n>>>>>>> .*?\n` with `re.DOTALL`

and replacement `\1\n`.  We embed the exact matching semantics of these two
patterns: a match is attempted at every position, left to right (leftmost match
wins); each lazy `.*?` prefers the shortest text and, because `re.DOTALL` is
set, may contain newlines; on failure of the remainder of the pattern the most
recent lazy quantifier is extended (standard backtracking order).  This is
realised below with `splits` (all ways to cut a string at an occurrence of a
literal, shortest first) and `firstSome` (take the first alternative that
succeeds).  `sub` scans the buffer and replaces each non-overlapping match,
resuming after the end of the previous match, exactly like `re.sub`.

`resolve_file` reads the file, returns `False` when the pattern does not occur,
otherwise writes `pattern.sub(r'\1\n', content)` back and returns `True`.  Its
pure core is modelled by `resolveV1` / `resolveV2 : List Char → List Char × Bool`
(output buffer, changed flag).  v2 additionally catches `UnicodeDecodeError`
and returns `False`; v1 lets the exception escape.  The file-level and
batch-level behaviour (including the decode-failure paths) is modelled by
`resolve_file_v1` / `resolve_file_v2` / `processBatchV1` / `processBatchV2`,
with an undecodable file represented as `none`.
-/

/-- The newline character, `\n` in the Python patterns. -/
def nl : Char := '\n'

/-- The seven-character open-marker literal `<<<<<<<`. -/
def seven : List Char := "<<<<<<<".data

/-- The ` HEAD` text that both patterns require after the open marker. -/
def headTag : List Char := " HEAD".data

/-- The literal `<<<<<<< HEAD` shared by both patterns. -/
def openLit2 : List Char := "<<<<<<< HEAD".data

/-- The v1 open-marker literal `<<<<<<< HEAD\n` (v1 requires the newline
immediately after `HEAD`). -/
def openLit1 : List Char := "<<<<<<< HEAD\n".data

/-- The separator literal `\n=======\n` of both patterns. -/
def sepEq : List Char := "\n=======\n".data

/-- The close-marker literal `\n>>>>>>> ` of both patterns. -/
def close9 : List Char := "\n>>>>>>> ".data

/-- The close-marker text `>>>>>>> ` without the leading newline. -/
def close8 : List Char := ">>>>>>> ".data

/-- First alternative that succeeds, in list order.  Models the backtracking
order of a lazy quantifier: candidates are tried front to back. -/
def firstSome {α β : Type} : List α → (α → Option β) → Option β
  | [], _ => none
  | x :: l, f =>
    match f x with
    | some y => some y
    | none => firstSome l f

/-- All decompositions `s = pre ++ sep ++ post`, ordered by increasing length
of `pre`.  A lazy `.*?` followed by the literal `sep` tries exactly these
splits in exactly this order. -/
def splits (sep : List Char) : List Char → List (List Char × List Char)
  | [] => if sep = [] then [([], [])] else []
  | c :: s' =>
    (if sep.isPrefixOf (c :: s') then [([], (c :: s').drop sep.length)] else []) ++
      (splits sep s').map (fun p => (c :: p.1, p.2))

/-- Matches the tail `.*?\n>>>>>>> .*?\n` of both patterns against `r2` (the
text right after the separator literal): lazily find the close marker, then
lazily find the newline ending the close-marker line.  Returns the text after
the match. -/
def innerTheirs (r2 : List Char) : Option (List Char) :=
  firstSome (splits close9 r2) (fun q => firstSome (splits [nl] q.2) (fun z => some z.2))

/-- Matches `(.*?)\n=======\n.*?\n>>>>>>> .*?\n` against `r` (the text right
after the open-marker part): lazily find the separator, then match the rest.
Returns the captured group `\1` and the text after the match. -/
def innerMatch (r : List Char) : Option (List Char × List Char) :=
  firstSome (splits sepEq r)
    (fun p => (innerTheirs p.2).map (fun tail => (p.1, tail)))

/-- One attempt of the v1 pattern at the start of `s`: the literal
`<<<<<<< HEAD\n`, then the lazy groups.  Returns `(group 1, text after the
match)` on success. -/
def tryV1 (s : List Char) : Option (List Char × List Char) :=
  if openLit1.isPrefixOf s then innerMatch (s.drop openLit1.length) else none

/-- One attempt of the v2 pattern at the start of `s`: the literal
`<<<<<<< HEAD`, then lazy `.*?\n` (the loose label), then the shared rest. -/
def tryV2 (s : List Char) : Option (List Char × List Char) :=
  if openLit2.isPrefixOf s then
    firstSome (splits [nl] (s.drop openLit2.length)) (fun o => innerMatch o.2)
  else none

/-- Fuelled scanner for `pattern.sub(r'\1\n', content)`: at each position try a
match; on success emit the captured group followed by one newline and resume
after the match; otherwise copy one character.  The fuel only guards
termination; `s.length + 1` is always enough because a match consumes at least
one character. -/
def subF (tm : List Char → Option (List Char × List Char)) : Nat → List Char → List Char
  | 0, s => s
  | Nat.succ n, s =>
    match tm s with
    | some (g, t) => g ++ nl :: subF tm n t
    | none =>
      match s with
      | [] => []
      | c :: s' => c :: subF tm n s'

/-- `pattern.sub(r'\1\n', s)` for the matcher `tm`. -/
def subWith (tm : List Char → Option (List Char × List Char)) (s : List Char) : List Char :=
  subF tm (s.length + 1) s

/-- `pattern.search(s)` for the matcher `tm`: true iff a match starts at some
position of `s`. -/
def searchWith (tm : List Char → Option (List Char × List Char)) : List Char → Bool
  | [] => false
  | c :: s' => (tm (c :: s')).isSome || searchWith tm s'

/-- `re.sub` with the v1 pattern. -/
def subV1 (s : List Char) : List Char := subWith tryV1 s

/-- `re.sub` with the v2 pattern. -/
def subV2 (s : List Char) : List Char := subWith tryV2 s

/-- `pattern.search` with the v1 pattern. -/
def searchV1 (s : List Char) : Bool := searchWith tryV1 s

/-- `pattern.search` with the v2 pattern. -/
def searchV2 (s : List Char) : Bool := searchWith tryV2 s

/-- Pure core of v1's `resolve_file` on a decoded buffer: if the pattern does
not occur the function returns `False` (and does not write); otherwise the
substituted content is written back and it returns `True`. -/
def resolveV1 (s : List Char) : List Char × Bool :=
  if searchV1 s then (subV1 s, true) else (s, false)

/-- Pure core of v2's `resolve_file` on a decoded buffer. -/
def resolveV2 (s : List Char) : List Char × Bool :=
  if searchV2 s then (subV2 s, true) else (s, false)

/-- v1's `resolve_file` at the file level.  `none` stands for a file whose
bytes fail to decode: v1 has no `try`/`except`, so the `UnicodeDecodeError`
raised by `f.read()` escapes (modelled as `Except.error ()`). -/
def resolve_file_v1 (buf : Option (List Char)) : Except Unit (Option (List Char) × Bool) :=
  match buf with
  | none => Except.error ()
  | some s => Except.ok (some (resolveV1 s).1, (resolveV1 s).2)

/-- v2's `resolve_file` at the file level: a `UnicodeDecodeError` is caught and
the function returns `False`, leaving the file untouched. -/
def resolve_file_v2 (buf : Option (List Char)) : Option (List Char) × Bool :=
  match buf with
  | none => (none, false)
  | some s => (some (resolveV2 s).1, (resolveV2 s).2)

/-- The v1 batch loop over candidate files: each file is resolved in turn and
the resolved ones are counted; an uncaught exception aborts the whole run. -/
def processBatchV1 : List (Option (List Char)) → Except Unit (List (Option (List Char)) × Nat)
  | [] => Except.ok ([], 0)
  | f :: fs =>
    match resolve_file_v1 f with
    | Except.error e => Except.error e
    | Except.ok r =>
      match processBatchV1 fs with
      | Except.error e => Except.error e
      | Except.ok (outs, n) => Except.ok (r.1 :: outs, n + (if r.2 then 1 else 0))

/-- The v2 batch loop: every file is processed; resolved files are counted. -/
def processBatchV2 : List (Option (List Char)) → List (Option (List Char)) × Nat
  | [] => ([], 0)
  | f :: fs =>
    ((resolve_file_v2 f).1 :: (processBatchV2 fs).1,
      (processBatchV2 fs).2 + (if (resolve_file_v2 f).2 then 1 else 0))

/-- `occursWithin pat s k = true` iff `pat` occurs in `s` starting at some
position `j < k`. -/
def occursWithin (pat : List Char) : List Char → Nat → Bool
  | _, 0 => false
  | s, Nat.succ k =>
    pat.isPrefixOf s ||
      (match s with
       | [] => false
       | _ :: s' => occursWithin pat s' k)

/-- `pat` occurs somewhere in `s`. -/
def occursIn (pat s : List Char) : Bool :=
  occursWithin pat s (s.length + 1)

/-- There is an occurrence of `pat` in `s` with a newline somewhere after it. -/
def occThenNl (pat : List Char) : List Char → Bool
  | [] => false
  | c :: s' =>
    (pat.isPrefixOf (c :: s') && decide (nl ∈ (c :: s').drop pat.length)) || occThenNl pat s'

/-- Is this allowed as the character just before a line-initial marker?
(`none` = start of buffer.) -/
def prevOk : Option Char → Bool
  | none => true
  | some c => c == nl

/-- Checks that every occurrence of `<<<<<<<` in the remaining text is
line-initial and immediately followed by ` HEAD` and a newline; `prev` is the
character just before the remaining text. -/
def goodOpensAux : Option Char → List Char → Bool
  | _, [] => true
  | prev, c :: s' =>
    (!(seven.isPrefixOf (c :: s')) ||
      (prevOk prev && (headTag ++ [nl]).isPrefixOf ((c :: s').drop seven.length))) &&
      goodOpensAux (some c) s'

/-- Every occurrence of the open-marker text `<<<<<<<` in `s` is the exact
line-initial text `<<<<<<< HEAD` followed immediately by a newline. -/
def goodOpens (s : List Char) : Bool := goodOpensAux none s

/-- The full text of one conflict block in the strict (v1) shape: open-marker
line, ours body `o`, separator line, theirs body `th`, close-marker line with
label `lbl`, final newline included. -/
def blockTxt (o th lbl : List Char) : List Char :=
  openLit1 ++ o ++ sepEq ++ th ++ close9 ++ lbl ++ [nl]

/-- The matcher shrinks its input: the text after a match is shorter than the
text the match started at. -/
def ShrinksOn (tm : List Char → Option (List Char × List Char)) : Prop :=
  ∀ u g t, tm u = some (g, t) → t.length < u.length

/-! ### Basic facts about the literals -/

theorem openLit1_eq : openLit1 = openLit2 ++ [nl] := by decide

theorem openLit2_eq : openLit2 = seven ++ headTag := by decide

theorem openLit2_ne_nil : openLit2 ≠ [] := by decide

theorem sepEq_ne_nil : sepEq ≠ [] := by decide

theorem close9_ne_nil : close9 ≠ [] := by decide

theorem close9_eq : close9 = nl :: close8 := by decide

theorem tryV1_nil : tryV1 [] = none := by decide

theorem tryV2_nil : tryV2 [] = none := by decide

theorem isPrefixOf_iff {l1 l2 : List Char} : l1.isPrefixOf l2 = true ↔ l1 <+: l2 :=
  List.isPrefixOf_iff_prefix

/-! ### `splits` and `firstSome` -/

theorem splits_sound {sep : List Char} :
    ∀ {s a b : List Char}, (a, b) ∈ splits sep s → s = a ++ sep ++ b := by
  intro s
  induction s with
  | nil =>
    intro a b h
    simp only [splits] at h
    by_cases hsep : sep = []
    · simp [hsep] at h
      simp [h.1, h.2, hsep]
    · simp [hsep] at h
  | cons c s' ih =>
    intro a b h
    simp only [splits, List.mem_append, List.mem_map] at h
    rcases h with h | ⟨p, hp, hpe⟩
    · by_cases hpre : sep.isPrefixOf (c :: s')
      · simp [hpre] at h
        obtain ⟨rfl, rfl⟩ := h
        have hx : sep <+: (c :: s') := isPrefixOf_iff.mp hpre
        obtain ⟨t, ht⟩ := hx
        rw [← ht]
        simp [List.drop_left]
      · simp [hpre] at h
    · injection hpe with h1 h2
      subst h1
      subst h2
      have hs' := ih hp
      simp [hs', List.append_assoc]

theorem splits_complete {sep : List Char} (hsep : sep ≠ []) :
    ∀ (a b : List Char), (a, b) ∈ splits sep (a ++ sep ++ b) := by
  intro a
  induction a with
  | nil =>
    intro b
    obtain ⟨d, sep', rfl⟩ : ∃ d sep', sep = d :: sep' := by
      cases sep with
      | nil => exact absurd rfl hsep
      | cons d sep' => exact ⟨d, sep', rfl⟩
    simp only [List.nil_append, List.cons_append, splits, List.append_eq]
    have hpre : (d :: sep').isPrefixOf (d :: (sep' ++ b)) = true := by
      rw [← List.cons_append]
      exact isPrefixOf_iff.mpr (List.prefix_append _ _)
    rw [if_pos hpre]
    have hd : List.drop (d :: sep').length (d :: (sep' ++ b)) = b := by
      rw [← List.cons_append, List.drop_left]
    simp [hd]
  | cons c a' ih =>
    intro b
    simp only [List.cons_append, splits, List.mem_append, List.mem_map]
    right
    exact ⟨(a', b), ih b, rfl⟩

theorem firstSome_eq_none {α β : Type} {l : List α} {f : α → Option β} :
    firstSome l f = none ↔ ∀ x ∈ l, f x = none := by
  induction l with
  | nil => simp [firstSome]
  | cons x l ih =>
    simp only [firstSome]
    cases hx : f x with
    | some y => simp [hx]
    | none => simpa [hx] using ih

theorem firstSome_some {α β : Type} {l : List α} {f : α → Option β} {y : β} :
    firstSome l f = some y → ∃ x ∈ l, f x = some y := by
  induction l with
  | nil => simp [firstSome]
  | cons x l ih =>
    intro h
    simp only [firstSome] at h
    cases hx : f x with
    | some z =>
      rw [hx] at h
      simp only [Option.some.injEq] at h
      exact ⟨x, by simp, by rw [hx, h]⟩
    | none =>
      rw [hx] at h
      obtain ⟨x', hx', hfx'⟩ := ih h
      exact ⟨x', by simp [hx'], hfx'⟩

theorem firstSome_ne_none_of_mem {α β : Type} {l : List α} {f : α → Option β} {x : α} {y : β}
    (hx : x ∈ l) (hfx : f x = some y) : firstSome l f ≠ none := by
  intro h
  have := firstSome_eq_none.mp h x hx
  rw [this] at hfx
  exact Option.noConfusion hfx

theorem firstSome_map {α β γ : Type} (l : List α) (g : α → β) (f : β → Option γ) :
    firstSome (l.map g) f = firstSome l (fun x => f (g x)) := by
  induction l with
  | nil => rfl
  | cons x l ih =>
    simp only [List.map_cons, firstSome]
    cases f (g x) with
    | some y => rfl
    | none => exact ih

/-- The heart of lazy matching: when `sep` does not occur before position
`pre.length` and the continuation succeeds on the split at `pre.length`, the
lazy search returns exactly that continuation's answer. -/
theorem firstSome_splits {β : Type} {sep : List Char} (hsep : sep ≠ []) :
    ∀ (pre post : List Char) (f : List Char × List Char → Option β) (y : β),
      (∀ j, j < pre.length → ¬ sep <+: (pre ++ sep ++ post).drop j) →
      f (pre, post) = some y →
      firstSome (splits sep (pre ++ sep ++ post)) f = some y := by
  intro pre
  induction pre with
  | nil =>
    intro post f y _ hf
    obtain ⟨d, sep', rfl⟩ : ∃ d sep', sep = d :: sep' := by
      cases sep with
      | nil => exact absurd rfl hsep
      | cons d sep' => exact ⟨d, sep', rfl⟩
    simp only [List.nil_append, List.cons_append, splits, List.append_eq]
    have hpre : (d :: sep').isPrefixOf (d :: (sep' ++ post)) = true := by
      rw [← List.cons_append]
      exact isPrefixOf_iff.mpr (List.prefix_append _ _)
    rw [if_pos hpre]
    have hd : List.drop (d :: sep').length (d :: (sep' ++ post)) = post := by
      rw [← List.cons_append, List.drop_left]
    simp only [hd, List.singleton_append, firstSome, hf]
  | cons c pre' ih =>
    intro post f y hocc hf
    have h0 : ¬ sep.isPrefixOf (c :: pre' ++ sep ++ post) := by
      intro hx
      exact hocc 0 (by simp) (by
        simpa using isPrefixOf_iff.mp hx)
    simp only [List.cons_append, splits, List.append_eq] at h0 ⊢
    rw [if_neg h0]
    rw [List.nil_append, firstSome_map]
    exact ih post (fun p => f (c :: p.1, p.2)) y
      (fun j hj => by
        have := hocc (j + 1) (by simpa using Nat.succ_lt_succ hj)
        simpa using this)
      hf

/-! ### Occurrence bookkeeping -/

theorem occursWithin_nil (pat : List Char) (k : Nat) :
    occursWithin pat [] (k + 1) = (pat.isPrefixOf [] || false) := rfl

theorem occursWithin_cons (pat : List Char) (c : Char) (s' : List Char) (k : Nat) :
    occursWithin pat (c :: s') (k + 1) = (pat.isPrefixOf (c :: s') || occursWithin pat s' k) := rfl

theorem occursWithin_false {pat : List Char} :
    ∀ {k : Nat} {s : List Char}, occursWithin pat s k = false →
      ∀ j, j < k → ¬ pat <+: s.drop j := by
  intro k
  induction k with
  | zero => intro s _ j hj; omega
  | succ k ih =>
    intro s h j hj
    cases s with
    | nil =>
      rw [occursWithin_nil, Bool.or_false] at h
      intro hx
      simp only [List.drop_nil] at hx
      rw [List.prefix_nil] at hx
      subst hx
      simp [List.isPrefixOf] at h
    | cons c s' =>
      rw [occursWithin_cons, Bool.or_eq_false_iff] at h
      cases j with
      | zero =>
        intro hx
        rw [List.drop_zero] at hx
        have h1 := h.1
        rw [isPrefixOf_iff.mpr hx] at h1
        exact Bool.noConfusion h1
      | succ j =>
        have := ih h.2 j (by omega)
        simpa using this

theorem occursWithin_true {pat : List Char} :
    ∀ (u v s : List Char) (k : Nat), s = u ++ pat ++ v → u.length < k →
      occursWithin pat s k = true := by
  intro u
  induction u with
  | nil =>
    intro v s k hs hk
    cases k with
    | zero => omega
    | succ k =>
      subst hs
      have hpre : pat.isPrefixOf ([] ++ pat ++ v) = true :=
        isPrefixOf_iff.mpr (by simpa using List.prefix_append pat v)
      cases he : ([] : List Char) ++ pat ++ v with
      | nil =>
        have hp2 : pat.isPrefixOf [] = true := he ▸ hpre
        rw [occursWithin_nil, hp2]
        rfl
      | cons c s' =>
        have hp2 : pat.isPrefixOf (c :: s') = true := he ▸ hpre
        rw [occursWithin_cons, hp2]
        rfl
  | cons c u' ih =>
    intro v s k hs hk
    cases k with
    | zero => omega
    | succ k =>
      subst hs
      simp only [List.cons_append]
      rw [occursWithin_cons, ih v _ k rfl (by simpa using Nat.lt_of_succ_lt_succ hk)]
      simp

theorem occursIn_false {pat s : List Char} (h : occursIn pat s = false) :
    ∀ u v, s ≠ u ++ pat ++ v := by
  intro u v he
  have hlen : u.length < s.length + 1 := by
    subst he
    simp [List.length_append]
    omega
  have := occursWithin_true u v s (s.length + 1) he hlen
  rw [occursIn] at h
  rw [this] at h
  exact Bool.noConfusion h

theorem occThenNl_false {pat : List Char} (hpat : pat ≠ []) :
    ∀ {s : List Char}, occThenNl pat s = false →
      ∀ u v, s = u ++ pat ++ v → nl ∉ v := by
  intro s
  induction s with
  | nil =>
    intro _ u v he hnl
    have : u = [] ∧ pat ++ v = [] := by
      constructor
      · cases u with
        | nil => rfl
        | cons a u' => simp at he
      · cases u with
        | nil => simpa using he.symm
        | cons a u' => simp at he
    have h2 := this.2
    rw [List.append_eq_nil] at h2
    exact hpat h2.1
  | cons c s' ih =>
    intro h u v he hnl
    simp only [occThenNl, Bool.or_eq_false_iff, Bool.and_eq_false_iff] at h
    cases u with
    | nil =>
      simp only [List.nil_append] at he
      rcases h.1 with h1 | h1
      · have : pat.isPrefixOf (c :: s') = true :=
          isPrefixOf_iff.mpr ⟨v, by rw [he]⟩
        rw [this] at h1
        exact Bool.noConfusion h1
      · have hdrop : (c :: s').drop pat.length = v := by
          rw [he, List.drop_left]
        rw [hdrop] at h1
        simp only [decide_eq_false_iff_not] at h1
        exact h1 hnl
    | cons a u' =>
      have hc : c = a ∧ s' = u' ++ pat ++ v := by
        simp only [List.cons_append] at he
        exact ⟨List.head_eq_of_cons_eq he, List.tail_eq_of_cons_eq he⟩
      exact ih h.2 u' v hc.2 hnl

/-! ### Decomposition (soundness) of the matchers -/

theorem innerTheirs_sound {r2 t : List Char} (h : innerTheirs r2 = some t) :
    ∃ th lbl, r2 = th ++ close9 ++ (lbl ++ [nl] ++ t) := by
  obtain ⟨q, hq, hfq⟩ := firstSome_some h
  obtain ⟨z, hz, hfz⟩ := firstSome_some hfq
  have h1 := splits_sound hq
  have h2 := splits_sound hz
  simp only [Option.some.injEq] at hfz
  subst hfz
  exact ⟨q.1, z.1, by rw [h1, h2]⟩

theorem innerMatch_sound {r g t : List Char} (h : innerMatch r = some (g, t)) :
    ∃ th lbl, r = g ++ sepEq ++ (th ++ close9 ++ (lbl ++ [nl] ++ t)) := by
  obtain ⟨p, hp, hfp⟩ := firstSome_some h
  have h1 := splits_sound hp
  cases hti : innerTheirs p.2 with
  | none => rw [hti] at hfp; exact Option.noConfusion hfp
  | some t' =>
    rw [hti] at hfp
    simp only [Option.map_some', Option.some.injEq, Prod.mk.injEq] at hfp
    obtain ⟨th, lbl, h2⟩ := innerTheirs_sound hti
    refine ⟨th, lbl, ?_⟩
    rw [h1, hfp.1, h2, hfp.2]

theorem tryV1_sound {s g t : List Char} (h : tryV1 s = some (g, t)) :
    ∃ th lbl, s = openLit1 ++ (g ++ sepEq ++ (th ++ close9 ++ (lbl ++ [nl] ++ t))) := by
  rw [tryV1] at h
  by_cases hp : openLit1.isPrefixOf s
  · rw [if_pos hp] at h
    obtain ⟨w, hw⟩ := isPrefixOf_iff.mp hp
    have hdrop : s.drop openLit1.length = w := by rw [← hw, List.drop_left]
    rw [hdrop] at h
    obtain ⟨th, lbl, h2⟩ := innerMatch_sound h
    exact ⟨th, lbl, by rw [← hw, h2]⟩
  · rw [if_neg hp] at h
    exact Option.noConfusion h

theorem tryV2_sound {s g t : List Char} (h : tryV2 s = some (g, t)) :
    ∃ o th lbl,
      s = openLit2 ++ (o ++ [nl] ++ (g ++ sepEq ++ (th ++ close9 ++ (lbl ++ [nl] ++ t)))) := by
  rw [tryV2] at h
  by_cases hp : openLit2.isPrefixOf s
  · rw [if_pos hp] at h
    obtain ⟨w, hw⟩ := isPrefixOf_iff.mp hp
    have hdrop : s.drop openLit2.length = w := by rw [← hw, List.drop_left]
    rw [hdrop] at h
    obtain ⟨p, hp2, hfp⟩ := firstSome_some h
    have h1 := splits_sound hp2
    obtain ⟨th, lbl, h2⟩ := innerMatch_sound hfp
    refine ⟨p.1, th, lbl, ?_⟩
    rw [← hw, h1, h2]
  · rw [if_neg hp] at h
    exact Option.noConfusion h

theorem tryV1_shrinks : ShrinksOn tryV1 := by
  intro u g t h
  obtain ⟨th, lbl, he⟩ := tryV1_sound h
  subst he
  simp [List.length_append, openLit1, sepEq, close9]
  omega

theorem tryV2_shrinks : ShrinksOn tryV2 := by
  intro u g t h
  obtain ⟨o, th, lbl, he⟩ := tryV2_sound h
  subst he
  simp [List.length_append, openLit2, sepEq, close9]
  omega

theorem tryV1_suffix {s g t : List Char} (h : tryV1 s = some (g, t)) : t <:+ s := by
  obtain ⟨th, lbl, he⟩ := tryV1_sound h
  exact ⟨openLit1 ++ (g ++ sepEq ++ (th ++ close9 ++ (lbl ++ [nl]))), by rw [he]; simp⟩

theorem tryV2_suffix {s g t : List Char} (h : tryV2 s = some (g, t)) : t <:+ s := by
  obtain ⟨o, th, lbl, he⟩ := tryV2_sound h
  exact ⟨openLit2 ++ (o ++ [nl] ++ (g ++ sepEq ++ (th ++ close9 ++ (lbl ++ [nl])))),
    by rw [he]; simp⟩

theorem tryV1_none_of_no_open {u : List Char} (h : ¬ openLit2 <+: u) : tryV1 u = none := by
  rw [tryV1]
  by_cases hp : openLit1.isPrefixOf u
  · exact absurd
      ((List.prefix_append openLit2 [nl]).trans
        (openLit1_eq ▸ isPrefixOf_iff.mp hp)) h
  · rw [if_neg hp]

theorem tryV2_none_of_no_open {u : List Char} (h : ¬ openLit2 <+: u) : tryV2 u = none := by
  rw [tryV2]
  by_cases hp : openLit2.isPrefixOf u
  · exact absurd (isPrefixOf_iff.mp hp) h
  · rw [if_neg hp]

/-! ### The `re.sub` scanner -/

theorem subF_congr {tm : List Char → Option (List Char × List Char)} (hsh : ShrinksOn tm) :
    ∀ (n m : Nat) (s : List Char), s.length < n → s.length < m →
      subF tm n s = subF tm m s := by
  intro n
  induction n with
  | zero => intro m s hn; omega
  | succ n ih =>
    intro m s hn hm
    cases m with
    | zero => omega
    | succ m =>
      cases htm : tm s with
      | some r =>
        obtain ⟨g, t⟩ := r
        have ht := hsh s g t htm
        simp only [subF, htm]
        rw [ih m t (by omega) (by omega)]
      | none =>
        cases s with
        | nil => simp [subF, htm]
        | cons c s' =>
          simp only [subF, htm]
          simp only [List.length_cons] at hn hm
          rw [ih m s' (by omega) (by omega)]

theorem subWith_match {tm : List Char → Option (List Char × List Char)} (hsh : ShrinksOn tm)
    {s g t : List Char} (h : tm s = some (g, t)) :
    subWith tm s = g ++ nl :: subWith tm t := by
  rw [subWith, subWith]
  have hstep : subF tm (s.length + 1) s = g ++ nl :: subF tm s.length t := by
    simp only [subF, h]
  rw [hstep, subF_congr hsh s.length (t.length + 1) t (hsh s g t h) (by omega)]

theorem subWith_nil {tm : List Char → Option (List Char × List Char)} (h : tm [] = none) :
    subWith tm [] = [] := by
  rw [subWith]
  simp only [List.length_nil, subF, h]

theorem subWith_cons {tm : List Char → Option (List Char × List Char)}
    {c : Char} {s' : List Char} (h : tm (c :: s') = none) :
    subWith tm (c :: s') = c :: subWith tm s' := by
  rw [subWith, subWith]
  simp only [List.length_cons, subF, h]

theorem subWith_id {tm : List Char → Option (List Char × List Char)}
    {s : List Char} (h : ∀ j, tm (s.drop j) = none) : subWith tm s = s := by
  induction s with
  | nil => exact subWith_nil (by simpa using h 0)
  | cons c s' ih =>
    rw [subWith_cons (by simpa using h 0)]
    rw [ih (fun j => by simpa using h (j + 1))]

theorem subWith_append_inert {tm : List Char → Option (List Char × List Char)}
    (hsh : ShrinksOn tm) :
    ∀ (x y : List Char), (∀ j, j < x.length → tm ((x ++ y).drop j) = none) →
      subWith tm (x ++ y) = x ++ subWith tm y := by
  intro x
  induction x with
  | nil => intro y _; simp
  | cons c x' ih =>
    intro y h
    have h0 : tm (c :: (x' ++ y)) = none := by simpa using h 0 (by simp)
    simp only [List.cons_append]
    rw [subWith_cons h0]
    rw [ih y (fun j hj => by simpa using h (j + 1) (by simpa using Nat.succ_lt_succ hj))]

/-! ### The `pattern.search` scanner -/

theorem isSome_false_eq_none {α : Type} {o : Option α} (h : o.isSome = false) : o = none := by
  cases o with
  | none => rfl
  | some a => simp at h

theorem searchWith_false_elim {tm : List Char → Option (List Char × List Char)} :
    ∀ {s : List Char}, searchWith tm s = false → ∀ j, j < s.length → tm (s.drop j) = none := by
  intro s
  induction s with
  | nil => intro _ j hj; simp at hj
  | cons c s' ih =>
    intro h j hj
    simp only [searchWith, Bool.or_eq_false_iff] at h
    cases j with
    | zero => simpa using isSome_false_eq_none h.1
    | succ j =>
      simp only [List.length_cons] at hj
      simpa using ih h.2 j (by omega)

theorem searchWith_false_intro {tm : List Char → Option (List Char × List Char)} :
    ∀ {s : List Char}, (∀ j, tm (s.drop j) = none) → searchWith tm s = false := by
  intro s
  induction s with
  | nil => intro _; rfl
  | cons c s' ih =>
    intro h
    simp only [searchWith, Bool.or_eq_false_iff]
    refine ⟨?_, ih (fun j => by simpa using h (j + 1))⟩
    have h0 : tm (c :: s') = none := by simpa using h 0
    rw [h0]
    rfl

theorem searchWith_sub {tm : List Char → Option (List Char × List Char)}
    (hnil : tm [] = none) :
    ∀ {s : List Char}, searchWith tm s = false → subWith tm s = s := by
  intro s
  induction s with
  | nil => intro _; exact subWith_nil hnil
  | cons c s' ih =>
    intro h
    simp only [searchWith, Bool.or_eq_false_iff] at h
    rw [subWith_cons (isSome_false_eq_none h.1), ih h.2]

theorem searchWith_append_some {tm : List Char → Option (List Char × List Char)}
    (hnil : tm [] = none) {y : List Char} (hy : tm y ≠ none) :
    ∀ (x : List Char), searchWith tm (x ++ y) = true := by
  intro x
  induction x with
  | nil =>
    cases y with
    | nil => exact absurd hnil hy
    | cons c y' =>
      simp only [List.nil_append, searchWith, Bool.or_eq_true]
      left
      cases htm : tm (c :: y') with
      | none => exact absurd htm hy
      | some r => rfl
  | cons c x' ih =>
    simp only [List.cons_append, searchWith, Bool.or_eq_true]
    right
    exact ih

/-! ### Positive match lemmas: a well-formed block at the head is matched and
its ours body captured -/

theorem not_nl_prefix_in_label {lbl : List Char} (h : nl ∉ lbl) :
    ∀ (z : List Char) (j : Nat), j < lbl.length → ¬ [nl] <+: (lbl ++ z).drop j := by
  induction lbl with
  | nil => intro z j hj; simp at hj
  | cons d lbl' ih =>
    intro z j hj hx
    cases j with
    | zero =>
      simp only [List.drop_zero, List.cons_append] at hx
      obtain ⟨w, hw⟩ := hx
      simp only [List.singleton_append] at hw
      injection hw with h1 h2
      exact h (by rw [← h1]; exact List.mem_cons_self nl lbl')
    | succ j =>
      simp only [List.cons_append, List.drop_succ_cons] at hx
      exact ih (fun hm => h (by simp [hm])) z j (by simpa using Nat.lt_of_succ_lt_succ hj) hx

theorem innerTheirs_pos {th lbl rest : List Char}
    (h2 : ∀ j, j < th.length → ¬ close9 <+: (th ++ close9 ++ (lbl ++ [nl] ++ rest)).drop j)
    (h3 : nl ∉ lbl) :
    innerTheirs (th ++ close9 ++ (lbl ++ [nl] ++ rest)) = some rest := by
  rw [innerTheirs]
  refine firstSome_splits close9_ne_nil th (lbl ++ [nl] ++ rest) _ rest h2 ?_
  refine firstSome_splits (by simp) lbl rest _ rest ?_ rfl
  intro j hj
  have hnp := not_nl_prefix_in_label h3 ([nl] ++ rest) j hj
  simpa [List.append_assoc] using hnp

theorem innerMatch_pos {o th lbl rest : List Char}
    (h1 : ∀ j, j < o.length →
      ¬ sepEq <+: (o ++ sepEq ++ (th ++ close9 ++ (lbl ++ [nl] ++ rest))).drop j)
    (h2 : ∀ j, j < th.length → ¬ close9 <+: (th ++ close9 ++ (lbl ++ [nl] ++ rest)).drop j)
    (h3 : nl ∉ lbl) :
    innerMatch (o ++ sepEq ++ (th ++ close9 ++ (lbl ++ [nl] ++ rest))) = some (o, rest) := by
  rw [innerMatch]
  refine firstSome_splits sepEq_ne_nil o (th ++ close9 ++ (lbl ++ [nl] ++ rest)) _ (o, rest) h1 ?_
  rw [innerTheirs_pos h2 h3]
  rfl

theorem tryV1_pos {o th lbl rest : List Char}
    (h1 : ∀ j, j < o.length →
      ¬ sepEq <+: (o ++ sepEq ++ (th ++ close9 ++ (lbl ++ [nl] ++ rest))).drop j)
    (h2 : ∀ j, j < th.length → ¬ close9 <+: (th ++ close9 ++ (lbl ++ [nl] ++ rest)).drop j)
    (h3 : nl ∉ lbl) :
    tryV1 (blockTxt o th lbl ++ rest) = some (o, rest) := by
  have hshape : blockTxt o th lbl ++ rest
      = openLit1 ++ (o ++ sepEq ++ (th ++ close9 ++ (lbl ++ [nl] ++ rest))) := by
    rw [blockTxt]
    simp [List.append_assoc]
  rw [hshape, tryV1]
  have hpre : openLit1.isPrefixOf
      (openLit1 ++ (o ++ sepEq ++ (th ++ close9 ++ (lbl ++ [nl] ++ rest)))) :=
    isPrefixOf_iff.mpr (List.prefix_append _ _)
  rw [if_pos hpre, List.drop_left]
  exact innerMatch_pos h1 h2 h3

theorem tryV2_pos {o th lbl rest : List Char}
    (h1 : ∀ j, j < o.length →
      ¬ sepEq <+: (o ++ sepEq ++ (th ++ close9 ++ (lbl ++ [nl] ++ rest))).drop j)
    (h2 : ∀ j, j < th.length → ¬ close9 <+: (th ++ close9 ++ (lbl ++ [nl] ++ rest)).drop j)
    (h3 : nl ∉ lbl) :
    tryV2 (blockTxt o th lbl ++ rest) = some (o, rest) := by
  have hshape : blockTxt o th lbl ++ rest
      = openLit2 ++ (nl :: (o ++ sepEq ++ (th ++ close9 ++ (lbl ++ [nl] ++ rest)))) := by
    rw [blockTxt, openLit1_eq]
    simp [List.append_assoc]
  rw [hshape, tryV2]
  have hpre : openLit2.isPrefixOf
      (openLit2 ++ (nl :: (o ++ sepEq ++ (th ++ close9 ++ (lbl ++ [nl] ++ rest))))) :=
    isPrefixOf_iff.mpr (List.prefix_append _ _)
  rw [if_pos hpre, List.drop_left]
  have hsplits : splits [nl] (nl :: (o ++ sepEq ++ (th ++ close9 ++ (lbl ++ [nl] ++ rest))))
      = ([], o ++ sepEq ++ (th ++ close9 ++ (lbl ++ [nl] ++ rest)))
        :: (splits [nl] (o ++ sepEq ++ (th ++ close9 ++ (lbl ++ [nl] ++ rest)))).map
          (fun p => (nl :: p.1, p.2)) := by
    rw [splits]
    have : [nl].isPrefixOf
        (nl :: (o ++ sepEq ++ (th ++ close9 ++ (lbl ++ [nl] ++ rest)))) = true := by
      simp [List.isPrefixOf]
    rw [if_pos this]
    rfl
  rw [hsplits]
  simp only [firstSome]
  rw [innerMatch_pos h1 h2 h3]

/-! ### Claims settled on concrete buffers -/

/-- Claim C1: For the input buffer `a\n<<<<<<< HEAD\nkept line\n=======\ndiscarded
line\n>>>>>>> feature\nb\n`, resolve (in both script variants) produces
exactly the buffer `a\nkept line\nb\n` and reports `changed = true`: the
conflict block is replaced by its ours body followed by a single newline, and
the surrounding lines are preserved. -/
theorem claim_C1_ours_extraction :
    resolveV1 ("a\n<<<<<<< HEAD\nkept line\n=======\ndiscarded line\n>>>>>>> feature\nb\n".data)
        = ("a\nkept line\nb\n".data, true)
    ∧ resolveV2 ("a\n<<<<<<< HEAD\nkept line\n=======\ndiscarded line\n>>>>>>> feature\nb\n".data)
        = ("a\nkept line\nb\n".data, true) := by
  constructor
  · decide
  · decide

/-- Claim C2 counterexample: resolution is not idempotent.  For the buffer whose
ours body itself contains conflict-marker lines, the first application
reports `changed = true` and leaves a new well-formed conflict block in its
output, so the second application again reports `changed = true` and changes
the bytes (the claim demands `changed = false` and byte-identical content). -/
theorem claim_C2_counterexample :
    (resolveV1 ("<<<<<<< HEAD\n<<<<<<< HEAD\nX\n=======\nY\n>>>>>>> b\n=======\nZ\n>>>>>>> c\n".data)).1
        = "<<<<<<< HEAD\nX\n=======\nZ\n>>>>>>> c\n".data
    ∧ (resolveV1 ("<<<<<<< HEAD\n<<<<<<< HEAD\nX\n=======\nY\n>>>>>>> b\n=======\nZ\n>>>>>>> c\n".data)).2
        = true
    ∧ resolveV1 ("<<<<<<< HEAD\nX\n=======\nZ\n>>>>>>> c\n".data) = ("X\n".data, true)
    ∧ resolveV2 ("<<<<<<< HEAD\nX\n=======\nZ\n>>>>>>> c\n".data) = ("X\n".data, true)
    ∧ (resolveV2 ("<<<<<<< HEAD\n<<<<<<< HEAD\nX\n=======\nY\n>>>>>>> b\n=======\nZ\n>>>>>>> c\n".data)).1
        = "<<<<<<< HEAD\nX\n=======\nZ\n>>>>>>> c\n".data := by
  refine ⟨by decide, by decide, by decide, by decide, by decide⟩

/-- Claim C2 (amended): resolution is idempotent on every buffer whose first output
contains no further match of the conflict pattern — in particular whenever no
ours body itself contains marker text.  Then the second application reports
`changed = false` and returns its input byte-identically. -/
theorem claim_C2_idempotent_on_matchfree_output (s : List Char)
    (h1 : searchV1 (resolveV1 s).1 = false) (h2 : searchV2 (resolveV2 s).1 = false) :
    resolveV1 (resolveV1 s).1 = ((resolveV1 s).1, false)
    ∧ resolveV2 (resolveV2 s).1 = ((resolveV2 s).1, false) := by
  constructor
  · rw [resolveV1, if_neg (by rw [h1]; exact Bool.noConfusion)]
  · rw [resolveV2, if_neg (by rw [h2]; exact Bool.noConfusion)]

/-- Claim C2 witness: the amended idempotence at the standard example buffer. -/
theorem claim_C2_witness :
    searchV1 (resolveV1 ("a\n<<<<<<< HEAD\nkept\n=======\nd\n>>>>>>> f\nb\n".data)).1 = false
    ∧ searchV2 (resolveV2 ("a\n<<<<<<< HEAD\nkept\n=======\nd\n>>>>>>> f\nb\n".data)).1 = false
    ∧ resolveV1 (resolveV1 ("a\n<<<<<<< HEAD\nkept\n=======\nd\n>>>>>>> f\nb\n".data)).1
        = ((resolveV1 ("a\n<<<<<<< HEAD\nkept\n=======\nd\n>>>>>>> f\nb\n".data)).1, false) :=
  ⟨by decide, by decide,
    (claim_C2_idempotent_on_matchfree_output
      ("a\n<<<<<<< HEAD\nkept\n=======\nd\n>>>>>>> f\nb\n".data)
      (by decide) (by decide)).1⟩

/-- Claim C4 counterexample: v2 reports an undecodable file with the same `False`
flag as an unchanged file — there is no distinct skipped outcome — and in v1
one undecodable file aborts the whole batch, so the remaining files are not
resolved (the claim demands a distinct outcome and batch isolation). -/
theorem claim_C4_counterexample :
    (resolve_file_v2 none).2 = (resolve_file_v2 (some ("x\n".data))).2
    ∧ processBatchV1 [none, some ("a\n<<<<<<< HEAD\nk\n=======\nd\n>>>>>>> f\nb\n".data)]
        = Except.error () := by
  refine ⟨by decide, rfl⟩

/-- Claim C4 (amended): v2 maps an undecodable file to the flag `false` — the same
value an unchanged file gets, not a distinct outcome — and leaves it
untouched; in a v2 batch every file is processed independently of the others,
so one undecodable file does not prevent the rest from being resolved.  In v1
an undecodable file raises and aborts the whole batch. -/
theorem claim_C4_decode_handling :
    resolve_file_v2 none = (none, false)
    ∧ (∀ files, (processBatchV2 files).1 = files.map (fun f => (resolve_file_v2 f).1))
    ∧ (∀ fs, processBatchV1 (none :: fs) = Except.error ()) := by
  refine ⟨rfl, ?_, fun fs => rfl⟩
  intro files
  induction files with
  | nil => rfl
  | cons f fs ih => simp [processBatchV2, ih]

/-- Claim C6 counterexample: a conflict block whose ours body has zero lines
(`<<<<<<< HEAD` immediately followed by the separator line) is NOT matched by
either pattern: resolve reports `changed = false` and the marker text stays in
place (the claim demands the block be matched and collapsed). -/
theorem claim_C6_counterexample :
    resolveV1 ("a\n<<<<<<< HEAD\n=======\ndiscarded\n>>>>>>> f\nb\n".data)
        = ("a\n<<<<<<< HEAD\n=======\ndiscarded\n>>>>>>> f\nb\n".data, false)
    ∧ resolveV2 ("a\n<<<<<<< HEAD\n=======\ndiscarded\n>>>>>>> f\nb\n".data)
        = ("a\n<<<<<<< HEAD\n=======\ndiscarded\n>>>>>>> f\nb\n".data, false) := by
  refine ⟨by decide, by decide⟩

/-- Claim C6 (amended): a block whose ours side is a single empty line is matched
and resolves to a single blank line; a block with zero lines between the
open-marker line and the separator line is not matched at all and is left
intact, stray marker text included, with `changed = false`. -/
theorem claim_C6_empty_ours :
    resolveV1 ("a\n<<<<<<< HEAD\n\n=======\nd\n>>>>>>> f\nb\n".data) = ("a\n\nb\n".data, true)
    ∧ resolveV2 ("a\n<<<<<<< HEAD\n\n=======\nd\n>>>>>>> f\nb\n".data) = ("a\n\nb\n".data, true)
    ∧ (resolveV1 ("a\n<<<<<<< HEAD\n=======\nd\n>>>>>>> f\nb\n".data)).2 = false
    ∧ (resolveV2 ("a\n<<<<<<< HEAD\n=======\nd\n>>>>>>> f\nb\n".data)).2 = false := by
  refine ⟨by decide, by decide, by decide, by decide⟩

/-- Claim C7 counterexample: a label-free open marker (`<<<<<<<` alone on its line),
which the claim says must match, is not matched by either pattern: the buffer
is left unchanged with `changed = false`. -/
theorem claim_C7_counterexample :
    resolveV1 ("<<<<<<<\nkept\n=======\nd\n>>>>>>> f\n".data)
        = ("<<<<<<<\nkept\n=======\nd\n>>>>>>> f\n".data, false)
    ∧ resolveV2 ("<<<<<<<\nkept\n=======\nd\n>>>>>>> f\n".data)
        = ("<<<<<<<\nkept\n=======\nd\n>>>>>>> f\n".data, false) := by
  refine ⟨by decide, by decide⟩

/-- Claim C7 (amended): the open marker actually accepted is the literal
`<<<<<<< HEAD` — v1 requires a newline immediately after it, v2 allows
arbitrary label text through end of line — and it is matched anywhere in the
buffer, not only at line start.  A label-free open marker is matched by
neither variant, and a non-`HEAD` label only by v2. -/
theorem claim_C7_open_marker_grammar :
    resolveV1 ("x<<<<<<< HEAD\nk\n=======\nd\n>>>>>>> f\n".data) = ("xk\n".data, true)
    ∧ resolveV2 ("x<<<<<<< HEAD\nk\n=======\nd\n>>>>>>> f\n".data) = ("xk\n".data, true)
    ∧ resolveV2 ("<<<<<<< HEAD:a\nk\n=======\nd\n>>>>>>> f\n".data) = ("k\n".data, true)
    ∧ resolveV1 ("<<<<<<< HEAD:a\nk\n=======\nd\n>>>>>>> f\n".data)
        = ("<<<<<<< HEAD:a\nk\n=======\nd\n>>>>>>> f\n".data, false)
    ∧ (resolveV1 ("<<<<<<<\nk\n=======\nd\n>>>>>>> f\n".data)).2 = false
    ∧ (resolveV2 ("<<<<<<<\nk\n=======\nd\n>>>>>>> f\n".data)).2 = false := by
  refine ⟨by decide, by decide, by decide, by decide, by decide, by decide⟩

/-- Claim C3: For every decodable buffer in which the conflict pattern does not
occur (zero conflict blocks as recognised by the parser), both variants report
`changed = false` and the content is exactly the input — even the substitution
function itself is the identity there, so trailing-newline presence or absence
and everything outside matched blocks is preserved. -/
theorem claim_C3_verbatim_preservation (s : List Char)
    (h1 : searchV1 s = false) (h2 : searchV2 s = false) :
    subV1 s = s ∧ resolveV1 s = (s, false) ∧ subV2 s = s ∧ resolveV2 s = (s, false) := by
  have hs1 : subWith tryV1 s = s := searchWith_sub tryV1_nil h1
  have hs2 : subWith tryV2 s = s := searchWith_sub tryV2_nil h2
  refine ⟨hs1, ?_, hs2, ?_⟩
  · rw [resolveV1, if_neg (by rw [h1]; exact Bool.noConfusion)]
  · rw [resolveV2, if_neg (by rw [h2]; exact Bool.noConfusion)]

/-- Claim C3 witness: a conflict-free buffer without trailing newline is preserved
exactly. -/
theorem claim_C3_witness :
    searchV1 ("hello\nworld".data) = false ∧ searchV2 ("hello\nworld".data) = false
    ∧ resolveV1 ("hello\nworld".data) = ("hello\nworld".data, false)
    ∧ resolveV2 ("hello\nworld".data) = ("hello\nworld".data, false) :=
  ⟨by decide, by decide,
    (claim_C3_verbatim_preservation ("hello\nworld".data) (by decide) (by decide)).2.1,
    (claim_C3_verbatim_preservation ("hello\nworld".data) (by decide) (by decide)).2.2.2⟩

/-- Claim C5 counterexample: a buffer whose first open marker has no separator or
close marker of its own, followed by a well-formed block, is NOT left
untouched: the lazy match fuses from the malformed open through the later
block's markers, deletes the malformed open-marker line, and reports the file
as resolved (the claim demands the region stay untouched and the file not be
reported resolved). -/
theorem claim_C5_counterexample :
    resolveV1 ("<<<<<<< HEAD\nM\n<<<<<<< HEAD\nk\n=======\nd\n>>>>>>> f\nZ\n".data)
        = ("M\n<<<<<<< HEAD\nk\nZ\n".data, true)
    ∧ resolveV2 ("<<<<<<< HEAD\nM\n<<<<<<< HEAD\nk\n=======\nd\n>>>>>>> f\nZ\n".data)
        = ("M\n<<<<<<< HEAD\nk\nZ\n".data, true) := by
  refine ⟨by decide, by decide⟩

/-- Claim C5 (amended): a buffer that contains an open marker but no close-marker
text `>>>>>>> ` anywhere is left entirely unchanged by both variants and is
not reported as resolved (and the resolvers are total functions, so nothing
throws); if a separator and a close marker from a later well-formed block
follow the malformed open, the matcher can fuse across them and alter the
region. -/
theorem claim_C5_malformed_block_untouched (s : List Char)
    (hopen : occursIn openLit2 s = true)
    (hnoclose : occursIn close8 s = false) :
    resolveV1 s = (s, false) ∧ resolveV2 s = (s, false) := by
  have hnone1 : ∀ j, tryV1 (s.drop j) = none := by
    intro j
    cases htm : tryV1 (s.drop j) with
    | none => rfl
    | some r =>
      obtain ⟨g, t⟩ := r
      obtain ⟨th, lbl, he⟩ := tryV1_sound htm
      exfalso
      refine occursIn_false hnoclose
        (s.take j ++ openLit1 ++ g ++ sepEq ++ th ++ [nl]) (lbl ++ [nl] ++ t) ?_
      conv_lhs => rw [← List.take_append_drop j s, he]
      simp [close9_eq, List.append_assoc]
  have hnone2 : ∀ j, tryV2 (s.drop j) = none := by
    intro j
    cases htm : tryV2 (s.drop j) with
    | none => rfl
    | some r =>
      obtain ⟨g, t⟩ := r
      obtain ⟨o, th, lbl, he⟩ := tryV2_sound htm
      exfalso
      refine occursIn_false hnoclose
        (s.take j ++ openLit2 ++ o ++ [nl] ++ g ++ sepEq ++ th ++ [nl]) (lbl ++ [nl] ++ t) ?_
      conv_lhs => rw [← List.take_append_drop j s, he]
      simp [close9_eq, List.append_assoc]
  have hs1 : searchV1 s = false := searchWith_false_intro hnone1
  have hs2 : searchV2 s = false := searchWith_false_intro hnone2
  constructor
  · rw [resolveV1, if_neg (by rw [hs1]; exact Bool.noConfusion)]
  · rw [resolveV2, if_neg (by rw [hs2]; exact Bool.noConfusion)]

/-- Claim C5 witness: a truncated block (open marker and separator, no close marker)
is left untouched and not reported resolved. -/
theorem claim_C5_witness :
    occursIn openLit2 ("x\n<<<<<<< HEAD\nk\n=======\nd\n".data) = true
    ∧ occursIn close8 ("x\n<<<<<<< HEAD\nk\n=======\nd\n".data) = false
    ∧ resolveV1 ("x\n<<<<<<< HEAD\nk\n=======\nd\n".data)
        = ("x\n<<<<<<< HEAD\nk\n=======\nd\n".data, false)
    ∧ resolveV2 ("x\n<<<<<<< HEAD\nk\n=======\nd\n".data)
        = ("x\n<<<<<<< HEAD\nk\n=======\nd\n".data, false) :=
  ⟨by decide, by decide,
    (claim_C5_malformed_block_untouched ("x\n<<<<<<< HEAD\nk\n=======\nd\n".data)
      (by decide) (by decide)).1,
    (claim_C5_malformed_block_untouched ("x\n<<<<<<< HEAD\nk\n=======\nd\n".data)
      (by decide) (by decide)).2⟩

/-- Claim C9: both patterns require a newline after the close-marker line, so in any
buffer where no close-marker occurrence is followed by a later newline — in
particular when the only block's close-marker line is the last line of the
file with no trailing newline — nothing matches: both variants report
`changed = false` and leave the buffer unchanged. -/
theorem claim_C9_close_needs_trailing_newline (s : List Char)
    (h : occThenNl close9 s = false) :
    resolveV1 s = (s, false) ∧ resolveV2 s = (s, false) := by
  have hnone1 : ∀ j, tryV1 (s.drop j) = none := by
    intro j
    cases htm : tryV1 (s.drop j) with
    | none => rfl
    | some r =>
      obtain ⟨g, t⟩ := r
      obtain ⟨th, lbl, he⟩ := tryV1_sound htm
      exfalso
      refine occThenNl_false close9_ne_nil h
        (s.take j ++ openLit1 ++ g ++ sepEq ++ th) (lbl ++ [nl] ++ t) ?_ (by simp)
      conv_lhs => rw [← List.take_append_drop j s, he]
      simp [List.append_assoc]
  have hnone2 : ∀ j, tryV2 (s.drop j) = none := by
    intro j
    cases htm : tryV2 (s.drop j) with
    | none => rfl
    | some r =>
      obtain ⟨g, t⟩ := r
      obtain ⟨o, th, lbl, he⟩ := tryV2_sound htm
      exfalso
      refine occThenNl_false close9_ne_nil h
        (s.take j ++ openLit2 ++ o ++ [nl] ++ g ++ sepEq ++ th) (lbl ++ [nl] ++ t) ?_ (by simp)
      conv_lhs => rw [← List.take_append_drop j s, he]
      simp [List.append_assoc]
  have hs1 : searchV1 s = false := searchWith_false_intro hnone1
  have hs2 : searchV2 s = false := searchWith_false_intro hnone2
  constructor
  · rw [resolveV1, if_neg (by rw [hs1]; exact Bool.noConfusion)]
  · rw [resolveV2, if_neg (by rw [hs2]; exact Bool.noConfusion)]

/-- Claim C9 witness: a buffer whose only block's close-marker line is the last line
and has no trailing newline is unchanged and not reported resolved. -/
theorem claim_C9_witness :
    occThenNl close9 ("a\n<<<<<<< HEAD\nk\n=======\nd\n>>>>>>> f".data) = false
    ∧ resolveV1 ("a\n<<<<<<< HEAD\nk\n=======\nd\n>>>>>>> f".data)
        = ("a\n<<<<<<< HEAD\nk\n=======\nd\n>>>>>>> f".data, false)
    ∧ resolveV2 ("a\n<<<<<<< HEAD\nk\n=======\nd\n>>>>>>> f".data)
        = ("a\n<<<<<<< HEAD\nk\n=======\nd\n>>>>>>> f".data, false) :=
  ⟨by decide,
    (claim_C9_close_needs_trailing_newline ("a\n<<<<<<< HEAD\nk\n=======\nd\n>>>>>>> f".data)
      (by decide)).1,
    (claim_C9_close_needs_trailing_newline ("a\n<<<<<<< HEAD\nk\n=======\nd\n>>>>>>> f".data)
      (by decide)).2⟩

/-- Claim C8: a buffer assembled from text `a`, a well-formed block, text `b`, a
second well-formed block, and text `c` — where the open-marker literal does
not occur inside `a`, `b`, `c` (so the blocks are exactly the two given ones),
each ours body contains no earlier separator occurrence, each theirs body no
earlier close-marker occurrence (non-greedy matching stops at the first one),
and the close labels contain no newline — is resolved in a single application:
every block is replaced by its ours body followed by a single newline, the
text `a`, `b`, `c` between the blocks is untouched, and `changed = true`. -/
theorem claim_C8_multiple_blocks (a o1 th1 l1 b o2 th2 l2 c : List Char)
    (ha : occursWithin openLit2
      (a ++ (blockTxt o1 th1 l1 ++ (b ++ (blockTxt o2 th2 l2 ++ c)))) a.length = false)
    (h1a : occursWithin sepEq
      (o1 ++ sepEq ++ (th1 ++ close9 ++ (l1 ++ [nl] ++ (b ++ (blockTxt o2 th2 l2 ++ c)))))
      o1.length = false)
    (h1b : occursWithin close9
      (th1 ++ close9 ++ (l1 ++ [nl] ++ (b ++ (blockTxt o2 th2 l2 ++ c)))) th1.length = false)
    (h1c : nl ∉ l1)
    (hb : occursWithin openLit2 (b ++ (blockTxt o2 th2 l2 ++ c)) b.length = false)
    (h2a : occursWithin sepEq
      (o2 ++ sepEq ++ (th2 ++ close9 ++ (l2 ++ [nl] ++ c))) o2.length = false)
    (h2b : occursWithin close9 (th2 ++ close9 ++ (l2 ++ [nl] ++ c)) th2.length = false)
    (h2c : nl ∉ l2)
    (hc : occursWithin openLit2 c (c.length + 1) = false) :
    resolveV1 (a ++ blockTxt o1 th1 l1 ++ b ++ blockTxt o2 th2 l2 ++ c)
      = (a ++ o1 ++ [nl] ++ b ++ o2 ++ [nl] ++ c, true)
    ∧ resolveV2 (a ++ blockTxt o1 th1 l1 ++ b ++ blockTxt o2 th2 l2 ++ c)
      = (a ++ o1 ++ [nl] ++ b ++ o2 ++ [nl] ++ c, true) := by
  have hs : a ++ blockTxt o1 th1 l1 ++ b ++ blockTxt o2 th2 l2 ++ c
      = a ++ (blockTxt o1 th1 l1 ++ (b ++ (blockTxt o2 th2 l2 ++ c))) := by
    simp [List.append_assoc]
  have hout : a ++ o1 ++ [nl] ++ b ++ o2 ++ [nl] ++ c
      = a ++ (o1 ++ nl :: (b ++ (o2 ++ nl :: c))) := by
    simp [List.append_assoc]
  have hpos1 : tryV1 (blockTxt o1 th1 l1 ++ (b ++ (blockTxt o2 th2 l2 ++ c)))
      = some (o1, b ++ (blockTxt o2 th2 l2 ++ c)) :=
    tryV1_pos (occursWithin_false h1a) (occursWithin_false h1b) h1c
  have hpos1' : tryV1 (blockTxt o2 th2 l2 ++ c) = some (o2, c) :=
    tryV1_pos (occursWithin_false h2a) (occursWithin_false h2b) h2c
  have hpos2 : tryV2 (blockTxt o1 th1 l1 ++ (b ++ (blockTxt o2 th2 l2 ++ c)))
      = some (o1, b ++ (blockTxt o2 th2 l2 ++ c)) :=
    tryV2_pos (occursWithin_false h1a) (occursWithin_false h1b) h1c
  have hpos2' : tryV2 (blockTxt o2 th2 l2 ++ c) = some (o2, c) :=
    tryV2_pos (occursWithin_false h2a) (occursWithin_false h2b) h2c
  have hiA1 : ∀ j, j < a.length →
      tryV1 ((a ++ (blockTxt o1 th1 l1 ++ (b ++ (blockTxt o2 th2 l2 ++ c)))).drop j) = none :=
    fun j hj => tryV1_none_of_no_open (occursWithin_false ha j hj)
  have hiA2 : ∀ j, j < a.length →
      tryV2 ((a ++ (blockTxt o1 th1 l1 ++ (b ++ (blockTxt o2 th2 l2 ++ c)))).drop j) = none :=
    fun j hj => tryV2_none_of_no_open (occursWithin_false ha j hj)
  have hiB1 : ∀ j, j < b.length →
      tryV1 ((b ++ (blockTxt o2 th2 l2 ++ c)).drop j) = none :=
    fun j hj => tryV1_none_of_no_open (occursWithin_false hb j hj)
  have hiB2 : ∀ j, j < b.length →
      tryV2 ((b ++ (blockTxt o2 th2 l2 ++ c)).drop j) = none :=
    fun j hj => tryV2_none_of_no_open (occursWithin_false hb j hj)
  have hiC1 : ∀ j, tryV1 (c.drop j) = none := by
    intro j
    by_cases hj : j < c.length + 1
    · exact tryV1_none_of_no_open (occursWithin_false hc j hj)
    · rw [List.drop_eq_nil_of_le (by omega)]
      exact tryV1_nil
  have hiC2 : ∀ j, tryV2 (c.drop j) = none := by
    intro j
    by_cases hj : j < c.length + 1
    · exact tryV2_none_of_no_open (occursWithin_false hc j hj)
    · rw [List.drop_eq_nil_of_le (by omega)]
      exact tryV2_nil
  have hchain1 : subV1 (a ++ (blockTxt o1 th1 l1 ++ (b ++ (blockTxt o2 th2 l2 ++ c))))
      = a ++ (o1 ++ nl :: (b ++ (o2 ++ nl :: c))) := by
    show subWith tryV1 _ = _
    rw [subWith_append_inert tryV1_shrinks a _ hiA1,
      subWith_match tryV1_shrinks hpos1,
      subWith_append_inert tryV1_shrinks b _ hiB1,
      subWith_match tryV1_shrinks hpos1',
      subWith_id hiC1]
  have hchain2 : subV2 (a ++ (blockTxt o1 th1 l1 ++ (b ++ (blockTxt o2 th2 l2 ++ c))))
      = a ++ (o1 ++ nl :: (b ++ (o2 ++ nl :: c))) := by
    show subWith tryV2 _ = _
    rw [subWith_append_inert tryV2_shrinks a _ hiA2,
      subWith_match tryV2_shrinks hpos2,
      subWith_append_inert tryV2_shrinks b _ hiB2,
      subWith_match tryV2_shrinks hpos2',
      subWith_id hiC2]
  have hsrch1 : searchV1 (a ++ (blockTxt o1 th1 l1 ++ (b ++ (blockTxt o2 th2 l2 ++ c)))) = true := by
    show searchWith tryV1 _ = true
    exact searchWith_append_some tryV1_nil (by rw [hpos1]; exact Option.some_ne_none _) a
  have hsrch2 : searchV2 (a ++ (blockTxt o1 th1 l1 ++ (b ++ (blockTxt o2 th2 l2 ++ c)))) = true := by
    show searchWith tryV2 _ = true
    exact searchWith_append_some tryV2_nil (by rw [hpos2]; exact Option.some_ne_none _) a
  rw [hs, hout]
  constructor
  · rw [resolveV1, if_pos hsrch1, hchain1]
  · rw [resolveV2, if_pos hsrch2, hchain2]

/-- Claim C8 witness: a concrete buffer with two disjoint blocks resolves both,
keeping the surrounding text. -/
theorem claim_C8_witness :
    occursWithin openLit2
      ("p\n".data ++ (blockTxt "k1".data "d1".data "f".data ++ ("m\n".data ++ (blockTxt "k2".data "d2".data "g".data ++ "q\n".data)))) ("p\n".data).length = false
    ∧ occursWithin sepEq
      ("k1".data ++ sepEq ++ ("d1".data ++ close9 ++ ("f".data ++ [nl] ++ ("m\n".data ++ (blockTxt "k2".data "d2".data "g".data ++ "q\n".data)))))
      ("k1".data).length = false
    ∧ occursWithin close9
      ("d1".data ++ close9 ++ ("f".data ++ [nl] ++ ("m\n".data ++ (blockTxt "k2".data "d2".data "g".data ++ "q\n".data)))) ("d1".data).length = false
    ∧ nl ∉ "f".data
    ∧ occursWithin openLit2 ("m\n".data ++ (blockTxt "k2".data "d2".data "g".data ++ "q\n".data)) ("m\n".data).length = false
    ∧ occursWithin sepEq
      ("k2".data ++ sepEq ++ ("d2".data ++ close9 ++ ("g".data ++ [nl] ++ "q\n".data))) ("k2".data).length = false
    ∧ occursWithin close9 ("d2".data ++ close9 ++ ("g".data ++ [nl] ++ "q\n".data)) ("d2".data).length = false
    ∧ nl ∉ "g".data
    ∧ occursWithin openLit2 "q\n".data (("q\n".data).length + 1) = false
    ∧ resolveV1 ("p\n".data ++ blockTxt "k1".data "d1".data "f".data ++ "m\n".data ++ blockTxt "k2".data "d2".data "g".data ++ "q\n".data)
        = ("p\n".data ++ "k1".data ++ [nl] ++ "m\n".data ++ "k2".data ++ [nl] ++ "q\n".data, true)
    ∧ resolveV2 ("p\n".data ++ blockTxt "k1".data "d1".data "f".data ++ "m\n".data ++ blockTxt "k2".data "d2".data "g".data ++ "q\n".data)
        = ("p\n".data ++ "k1".data ++ [nl] ++ "m\n".data ++ "k2".data ++ [nl] ++ "q\n".data, true) :=
  ⟨by decide, by decide, by decide, by decide, by decide, by decide, by decide, by decide,
    by decide,
    (claim_C8_multiple_blocks "p\n".data "k1".data "d1".data "f".data "m\n".data
      "k2".data "d2".data "g".data "q\n".data
      (by decide) (by decide) (by decide) (by decide) (by decide)
      (by decide) (by decide) (by decide) (by decide)).1,
    (claim_C8_multiple_blocks "p\n".data "k1".data "d1".data "f".data "m\n".data
      "k2".data "d2".data "g".data "q\n".data
      (by decide) (by decide) (by decide) (by decide) (by decide)
      (by decide) (by decide) (by decide) (by decide)).2⟩

/-! ### Equivalence of the two variants on strict-marker buffers -/

theorem goodOpensAux_cons (prev : Option Char) (c : Char) (s' : List Char) :
    goodOpensAux prev (c :: s')
      = ((!(seven.isPrefixOf (c :: s')) ||
          (prevOk prev && (headTag ++ [nl]).isPrefixOf ((c :: s').drop seven.length)))
        && goodOpensAux (some c) s') := rfl

theorem goodOpensAux_key :
    ∀ {s : List Char} (p : Option Char), goodOpensAux p s = true →
      ∀ j, openLit2 <+: s.drop j → [nl] <+: (s.drop j).drop openLit2.length := by
  intro s
  induction s with
  | nil =>
    intro p _ j hp
    rw [List.drop_nil, List.prefix_nil] at hp
    exact absurd hp openLit2_ne_nil
  | cons c s' ih =>
    intro p h j hp
    rw [goodOpensAux_cons, Bool.and_eq_true] at h
    cases j with
    | zero =>
      rw [List.drop_zero] at hp ⊢
      obtain ⟨v, hv⟩ := hp
      have hseven : seven.isPrefixOf (c :: s') = true := by
        refine isPrefixOf_iff.mpr ?_
        exact (openLit2_eq ▸ List.prefix_append seven headTag).trans ⟨v, hv⟩
      have h1 := h.1
      rw [hseven] at h1
      simp only [Bool.not_true, Bool.false_or, Bool.and_eq_true] at h1
      have hlab : (headTag ++ [nl]) <+: ((c :: s').drop seven.length) :=
        isPrefixOf_iff.mp h1.2
      have hdrop7 : (c :: s').drop seven.length = headTag ++ v := by
        rw [← hv, openLit2_eq, List.append_assoc, List.drop_left]
      rw [hdrop7] at hlab
      have hnl : [nl] <+: v := (List.prefix_append_right_inj headTag).mp hlab
      have hdrop12 : (c :: s').drop openLit2.length = v := by
        rw [← hv, List.drop_left]
      rwa [hdrop12]
    | succ j =>
      rw [List.drop_succ_cons] at hp ⊢
      exact ih (some c) h.2 j hp

theorem try_eq_of_nl_after {u : List Char}
    (h : openLit2 <+: u → [nl] <+: u.drop openLit2.length) : tryV1 u = tryV2 u := by
  by_cases hp : openLit2 <+: u
  · obtain ⟨w, hw⟩ := hp
    have hd : u.drop openLit2.length = w := by rw [← hw, List.drop_left]
    have hnlw : [nl] <+: w := hd ▸ h ⟨w, hw⟩
    obtain ⟨w', hw'⟩ := hnlw
    have hu1 : u = openLit1 ++ w' := by
      rw [openLit1_eq, ← hw, ← hw']
      simp [List.append_assoc]
    have hp1 : openLit1.isPrefixOf u = true :=
      isPrefixOf_iff.mpr ⟨w', hu1.symm⟩
    have hd1 : u.drop openLit1.length = w' := by rw [hu1, List.drop_left]
    have hp2 : openLit2.isPrefixOf u = true := isPrefixOf_iff.mpr ⟨w, hw⟩
    rw [tryV1, if_pos hp1, hd1, tryV2, if_pos hp2, hd, ← hw']
    have hsplits : splits [nl] (nl :: w')
        = ([], w') :: (splits [nl] w').map (fun p => (nl :: p.1, p.2)) := by
      simp [splits, List.isPrefixOf]
    rw [show ([nl] : List Char) ++ w' = nl :: w' from rfl, hsplits]
    simp only [firstSome]
    cases him : innerMatch w' with
    | some y => rfl
    | none =>
      rw [firstSome_map]
      symm
      rw [firstSome_eq_none]
      intro q hq
      cases him2 : innerMatch q.2 with
      | none => rfl
      | some r =>
        exfalso
        obtain ⟨g, t⟩ := r
        rw [innerMatch] at him2
        obtain ⟨z, hz, hfz⟩ := firstSome_some him2
        cases hft : innerTheirs z.2 with
        | none => rw [hft] at hfz; exact Option.noConfusion hfz
        | some t' =>
          rw [hft] at hfz
          simp only [Option.map_some', Option.some.injEq, Prod.mk.injEq] at hfz
          have hw3 : w' = (q.1 ++ [nl] ++ z.1) ++ sepEq ++ z.2 := by
            rw [splits_sound hq, splits_sound hz]
            simp [List.append_assoc]
          have hmem := splits_complete sepEq_ne_nil (q.1 ++ [nl] ++ z.1) z.2
          rw [← hw3] at hmem
          rw [innerMatch] at him
          have hnone := firstSome_eq_none.mp him _ hmem
          rw [hft] at hnone
          simp at hnone
  · rw [tryV1_none_of_no_open hp, tryV2_none_of_no_open hp]

theorem try_eq_of_suffix {s0 t : List Char} (hg : goodOpens s0 = true) (hsuf : t <:+ s0) :
    tryV1 t = tryV2 t := by
  apply try_eq_of_nl_after
  intro hp
  obtain ⟨w, hw⟩ := hsuf
  have hdrop : s0.drop w.length = t := by rw [← hw, List.drop_left]
  have := goodOpensAux_key none hg w.length (by rw [hdrop]; exact hp)
  rwa [hdrop] at this

theorem subWith_eq_of_good (s0 : List Char) (hg : goodOpens s0 = true) :
    ∀ (n : Nat) (t : List Char), t.length ≤ n → t <:+ s0 →
      subWith tryV1 t = subWith tryV2 t := by
  intro n
  induction n with
  | zero =>
    intro t ht _
    have hte : t = [] := by
      cases t with
      | nil => rfl
      | cons c t' => simp at ht
    subst hte
    rw [subWith_nil tryV1_nil, subWith_nil tryV2_nil]
  | succ n ih =>
    intro t ht hsuf
    have htry : tryV1 t = tryV2 t := try_eq_of_suffix hg hsuf
    cases htm : tryV1 t with
    | some r =>
      obtain ⟨g, t'⟩ := r
      have htm2 : tryV2 t = some (g, t') := by rw [← htry, htm]
      rw [subWith_match tryV1_shrinks htm, subWith_match tryV2_shrinks htm2]
      have hsuf' : t' <:+ s0 := (tryV1_suffix htm).trans hsuf
      have hlen : t'.length ≤ n := by
        have := tryV1_shrinks t g t' htm
        omega
      rw [ih t' hlen hsuf']
    | none =>
      have htm2 : tryV2 t = none := by rw [← htry, htm]
      cases t with
      | nil => rw [subWith_nil tryV1_nil, subWith_nil tryV2_nil]
      | cons ch t' =>
        rw [subWith_cons htm, subWith_cons htm2]
        have hsuf' : t' <:+ s0 := (List.suffix_cons ch t').trans hsuf
        rw [ih t' (by simp at ht; omega) hsuf']

theorem searchWith_eq_of_good (s0 : List Char) (hg : goodOpens s0 = true) :
    ∀ (t : List Char), t <:+ s0 → searchWith tryV1 t = searchWith tryV2 t := by
  intro t
  induction t with
  | nil => intro _; rfl
  | cons ch t' ih =>
    intro hsuf
    have htry : tryV1 (ch :: t') = tryV2 (ch :: t') := try_eq_of_suffix hg hsuf
    simp only [searchWith]
    rw [htry, ih ((List.suffix_cons ch t').trans hsuf)]

/-- Claim C10: on every buffer in which each occurrence of the open-marker text
`<<<<<<<` is the exact line-initial `<<<<<<< HEAD` followed immediately by a
newline, the two resolver variants agree completely: same changed flag, same
output content. -/
theorem claim_C10_variant_equivalence (s : List Char) (hg : goodOpens s = true) :
    resolveV1 s = resolveV2 s := by
  have hsz : subWith tryV1 s = subWith tryV2 s :=
    subWith_eq_of_good s hg s.length s (le_refl _) (List.suffix_refl s)
  have hsr : searchWith tryV1 s = searchWith tryV2 s :=
    searchWith_eq_of_good s hg s (List.suffix_refl s)
  rw [resolveV1, resolveV2]
  rw [show searchV1 s = searchWith tryV1 s from rfl,
    show searchV2 s = searchWith tryV2 s from rfl, hsr,
    show subV1 s = subWith tryV1 s from rfl,
    show subV2 s = subWith tryV2 s from rfl, hsz]

/-- Claim C10 witness: the two variants agree on a standard strict-marker buffer. -/
theorem claim_C10_witness :
    goodOpens ("a\n<<<<<<< HEAD\nkept\n=======\nd\n>>>>>>> f\nb\n".data) = true
    ∧ resolveV1 ("a\n<<<<<<< HEAD\nkept\n=======\nd\n>>>>>>> f\nb\n".data)
        = resolveV2 ("a\n<<<<<<< HEAD\nkept\n=======\nd\n>>>>>>> f\nb\n".data) :=
  ⟨by decide,
    claim_C10_variant_equivalence ("a\n<<<<<<< HEAD\nkept\n=======\nd\n>>>>>>> f\nb\n".data)
      (by decide)⟩
